import Mathlib

/-!
Verification development for `step-security/action-read-yaml` (src/index.js).

The action's pipeline (function `run` in src/index.js) is embedded shallowly:

* JavaScript runtime values are modelled by `JVal` (strings, numbers,
  booleans, null, arrays, plain objects).  Objects and the resolved-value
  mapping are insertion-ordered association lists, matching JS object
  property enumeration order for non-integer-like keys (the only kind the
  theorems below use).
* `resolveVariables` (src/index.js lines 6-35) is embedded as `resolveVal`
  / `resolveChars`.  The JS `while` loop can genuinely diverge (e.g. on
  `$(constructor)`, or a value reintroducing its own token via `$&`), so
  the embedding takes an explicit fuel parameter and returns `none` when
  fuel runs out; `some r` means the loop terminated with result `r`.  All
  theorems about terminating runs quantify over or fix the fuel.  The
  property read `lookup[ref]` consults the own keys first and then the
  `Object.prototype` chain of the `{}` literal (`protoLookup`, which also
  captures what `replace` then does with the inherited member), and a
  string replacement value goes through `replace`'s `$`-pattern expansion
  (`expandRepl`).
* The recursive `traverse` closure (lines 79-94) is embedded by the
  mutually recursive `travVal` / `travObj` / `travArr`, which thread the
  incrementally built resolved mapping and the list of `setOutput` calls
  made so far, and stop at the first thrown error (carrying the outputs
  already published before the throw, as the real `core.setOutput` calls
  have already happened by then).
* The filter regex (built with flag "g", lines 96-113) is modelled by an
  abstract `Matcher` giving the leftmost match (start index and length) in
  a string; `removeAll` implements the semantics of JS
  `String.prototype.replace` with a global regex and an empty replacement
  (a single left-to-right pass removing each match).  Because the code
  resets `lastIndex` after each replace, and a failed `test` also resets
  it, the matcher can be modelled statelessly.  `litCompile` instantiates
  the matcher for metacharacter-free patterns, for which JS regex matching
  is literal substring search.
* `runWith` embeds the body of `run` after the entitlement check
  (`validateSubscription`) has passed non-fatally; file reading and YAML
  parsing are external collaborators, supplied as a `fetch` function whose
  outer `Except` is the read outcome and inner `Except` the parse outcome.
  `Effects.failure` records that the invocation fails reporting the given
  message (an error thrown inside the read callback); `Effects.errorLogs`
  records `core.error` calls.  `core.info` logging is not modelled.
-/

/-- JavaScript runtime values as produced by the YAML parser and handled by
`traverse` / `resolveVariables` in src/index.js. -/
inductive JVal where
  | str (s : String)
  | num (n : Int)
  | bool (b : Bool)
  | null
  | arr (elems : List JVal)
  | obj (fields : List (String × JVal))

/-- JavaScript truthiness of a `JVal`: empty string, 0, `false` and `null`
are falsy; every object (including an empty array or object) is truthy.
Used by the `!lookup[ref]` check in src/index.js line 23. -/
def jsTruthy : JVal → Bool
  | .str s => !(s == "")
  | .num n => !(n == 0)
  | .bool b => b
  | .null => false
  | .arr _ => true
  | .obj _ => true

mutual

/-- JavaScript `String(v)` coercion, used when a matched `$(name)` token is
replaced by `lookup[ref]` in `current.replace(found[0], lookup[ref])`
(src/index.js line 27): arrays stringify as their elements joined by ","
(with null elements becoming the empty string), objects as
"[object Object]". -/
def jsToString : JVal → String
  | .str s => s
  | .num n => toString n
  | .bool b => if b then "true" else "false"
  | .null => "null"
  | .arr xs => String.intercalate "," (jsToStrList xs)
  | .obj _ => "[object Object]"
termination_by structural v => v

/-- Stringification of array elements for `Array.prototype.toString`
(join with ","): null elements become the empty string. -/
def jsToStrList : List JVal → List String
  | [] => []
  | .null :: t => "" :: jsToStrList t
  | v :: t => jsToString v :: jsToStrList t
termination_by structural xs => xs

end

/-- Association-list lookup modelling the own-property part of the JS
property read `lookup[ref]` (src/index.js line 23); the maps built by the
pipeline have unique keys.  Because `resolvedValues` is an object literal
`{}`, the read also consults the `Object.prototype` chain when no own key
exists; that inherited part is modelled by `protoLookup` at the one read
site, inside `resolveChars`. -/
def getKey (m : List (String × JVal)) (k : String) : Option JVal :=
  (m.find? (fun kv => kv.1 == k)).map (·.2)

/-- Association-list write modelling JS property assignment
`resolvedValues[fullKey] = v` (src/index.js line 91): overwrites in place
if the key exists, otherwise appends, preserving insertion order.  The
key "__proto__" is special: the assignment invokes the setter inherited
from `Object.prototype`, which creates no own property (and, the stored
values being primitives here, changes nothing at all). -/
def setKey (m : List (String × JVal)) (k : String) (v : JVal) :
    List (String × JVal) :=
  if k == "__proto__" then m
  else if m.any (fun kv => kv.1 == k) then
    m.map (fun kv => if kv.1 == k then (k, v) else kv)
  else m ++ [(k, v)]

/-- Splits a character list at the first ')': returns the characters before
it and the characters after it.  Models the behaviour of the regex piece
`([^\)]+)\)` from the pattern on src/index.js line 18, whose greedy
non-')' class always ends at the first ')'. -/
def splitAtRp : List Char → Option (List Char × List Char)
  | [] => none
  | c :: t =>
    if c = ')' then some ([], t)
    else (splitAtRp t).map (fun p => (c :: p.1, p.2))

/-- Match of the token regex `/\$\(([^\)]+)\)/` anchored at the start of
the list: the list must begin with `$(`, followed by a nonempty run of
non-')' characters (the name) and a ')'.  Returns `(name, after)`. -/
def tokenHere : List Char → Option (List Char × List Char)
  | '$' :: '(' :: rest =>
    match splitAtRp rest with
    | some (nm, after) => if nm.isEmpty then none else some (nm, after)
    | none => none
  | _ => none

/-- Leftmost match of the token regex `/\$\(([^\)]+)\)/` (src/index.js
line 18): returns `(before, name, after)` where the input is
`before ++ "$(" ++ name ++ ")" ++ after`, `name` is nonempty and contains
no ')', and no token occurrence starts earlier; like the JS regex engine,
the scan advances one position at a time until the anchored match
succeeds. -/
def findToken : List Char → Option (List Char × List Char × List Char)
  | [] => none
  | c :: t =>
    match tokenHere (c :: t) with
    | some (nm, after) => some ([], nm, after)
    | none => (findToken t).map (fun p => (c :: p.1, p.2.1, p.2.2))

/-- Error message thrown on an unresolvable `$(name)` reference
(src/index.js line 24). -/
def undefinedMsg (n : String) : String :=
  "Variable \"" ++ n ++ "\" is not defined"

/-- The full text `$(name)` of a matched token, as bound to `found[0]` on
src/index.js line 27. -/
def tokenText (nm : List Char) : List Char :=
  '$' :: '(' :: (nm ++ [')'])

/-- The backquote character, written by code point to keep it out of the
source text. -/
def backquoteCh : Char := Char.ofNat 96

/-- The single-quote character, written by code point. -/
def squoteCh : Char := Char.ofNat 39

/-- Replacement-text expansion performed by `String.prototype.replace` when
the replacement is a string (GetSubstitution): `$$` yields `$`, `$&` the
matched text, a dollar followed by the backquote character the part of
the subject before the match, `$` followed by the single-quote character
the part after it; any other `$`-sequence passes through literally (there
are no capture groups, the search value on src/index.js line 27 being a
plain string). -/
def expandRepl (matched pre post : List Char) : List Char → List Char
  | [] => []
  | ['$'] => ['$']
  | '$' :: c :: t =>
    if c = '$' then '$' :: expandRepl matched pre post t
    else if c = '&' then matched ++ expandRepl matched pre post t
    else if c = backquoteCh then pre ++ expandRepl matched pre post t
    else if c = squoteCh then post ++ expandRepl matched pre post t
    else '$' :: c :: expandRepl matched pre post t
  | c :: t => c :: expandRepl matched pre post t

/-- Outcome of line 23's read `lookup[ref]` hitting the `Object.prototype`
chain (no own key), followed by line 27's
`current.replace(found[0], lookup[ref])`:

* `subst s` — the token is replaced by the text `s`;
* `echo` — the replacer returns the matched token itself, so the string
  is unchanged and the loop never terminates;
* `raise msg` — invoking the inherited function as a replacer throws a
  TypeError with message `msg`. -/
inductive ProtoOutcome where
  | subst (s : String)
  | echo
  | raise (msg : String)

/-- Behaviour of the `{}` mapping's inherited `Object.prototype` members
under the read-then-replace of src/index.js lines 23-27, in Node's V8
runtime.  All twelve members read as truthy values, so line 24 never
throws for them.  `__proto__`'s getter yields `Object.prototype`, a
non-function, which the replace coerces to "[object Object]".  The
others are functions and are invoked by `replace` as replacers with an
undefined this value: `toString` returns "[object Undefined]";
`isPrototypeOf` returns false (its argument, the matched text, is not an
object), coerced to "false"; `constructor` is `Object`, which wraps the
matched text and stringifies back to it, so the replacement reproduces
the token (an infinite loop); the remaining members begin with
`ToObject(this)` or a property get on the this value and throw a
TypeError.  A name not on `Object.prototype` reads as undefined
(`none`). -/
def protoLookup (n : String) : Option ProtoOutcome :=
  if n = "__proto__" then some (.subst "[object Object]")
  else if n = "toString" then some (.subst "[object Undefined]")
  else if n = "isPrototypeOf" then some (.subst "false")
  else if n = "constructor" then some .echo
  else if n = "toLocaleString" then
    some (.raise ("Cannot read properties of undefined (reading "
      ++ String.mk [squoteCh] ++ "toString" ++ String.mk [squoteCh] ++ ")"))
  else if ["hasOwnProperty", "propertyIsEnumerable", "valueOf",
      "__defineGetter__", "__defineSetter__", "__lookupGetter__",
      "__lookupSetter__"].contains n then
    some (.raise "Cannot convert undefined or null to object")
  else none

/-- The `while (found)` substitution loop of `resolveVariables` for string
inputs (src/index.js lines 17-31): find the leftmost `$(name)` token and
read `lookup[name]` — an own key's value when one exists, otherwise the
member inherited from `Object.prototype` (`protoLookup`), otherwise
undefined.  A falsy read (own falsy value, or an absent name that is not
an `Object.prototype` member) throws `Variable "name" is not defined`;
an own truthy value is stringified, `$`-expanded (`expandRepl`) and
spliced over the token; an inherited read substitutes, loops, or raises
per `ProtoOutcome`.  After a substitution the result is re-scanned from
the start.  `none` means the fuel ran out before the loop terminated
(the real loop runs forever, e.g. on `$(constructor)`). -/
def resolveChars (lookup : List (String × JVal)) :
    Nat → List Char → Option (Except String (List Char))
  | 0, _ => none
  | fuel + 1, s =>
    match findToken s with
    | none => some (.ok s)
    | some (before, nm, after) =>
      match getKey lookup (String.mk nm) with
      | some v =>
        if jsTruthy v then
          resolveChars lookup fuel
            (before ++ expandRepl (tokenText nm) before after
              (jsToString v).toList ++ after)
        else some (.error (undefinedMsg (String.mk nm)))
      | none =>
        match protoLookup (String.mk nm) with
        | some (.subst rs) =>
          resolveChars lookup fuel (before ++ rs.toList ++ after)
        | some .echo =>
          resolveChars lookup fuel (before ++ tokenText nm ++ after)
        | some (.raise m) => some (.error m)
        | none => some (.error (undefinedMsg (String.mk nm)))

mutual

/-- Embedding of `resolveVariables(input, lookup)` (src/index.js lines
6-35): objects and arrays are rebuilt key by key (an array comes back as a
plain object keyed by its indices, exactly as the JS
`const result = {}` loop does); strings go through the substitution loop;
all other primitives are returned untouched. -/
def resolveVal (lookup : List (String × JVal)) (fuel : Nat) :
    JVal → Option (Except String JVal)
  | .arr xs =>
    (resolveElems lookup fuel 0 xs).map (fun e => e.map JVal.obj)
  | .obj fs =>
    (resolveFields lookup fuel fs).map (fun e => e.map JVal.obj)
  | .str s =>
    (resolveChars lookup fuel s.toList).map
      (fun e => e.map (fun cs => JVal.str (String.mk cs)))
  | v => some (.ok v)
termination_by structural v => v

/-- The `for (const key of Object.keys(input))` loop of `resolveVariables`
over an object's fields. -/
def resolveFields (lookup : List (String × JVal)) (fuel : Nat) :
    List (String × JVal) → Option (Except String (List (String × JVal)))
  | [] => some (.ok [])
  | (k, v) :: rest =>
    match resolveVal lookup fuel v with
    | none => none
    | some (.error m) => some (.error m)
    | some (.ok rv) =>
      match resolveFields lookup fuel rest with
      | none => none
      | some (.error m) => some (.error m)
      | some (.ok rs) => some (.ok ((k, rv) :: rs))
termination_by structural fs => fs

/-- The same loop over an array's elements, whose keys are the decimal
index strings "0", "1", ... -/
def resolveElems (lookup : List (String × JVal)) (fuel : Nat) (i : Nat) :
    List JVal → Option (Except String (List (String × JVal)))
  | [] => some (.ok [])
  | v :: rest =>
    match resolveVal lookup fuel v with
    | none => none
    | some (.error m) => some (.error m)
    | some (.ok rv) =>
      match resolveElems lookup fuel (i + 1) rest with
      | none => none
      | some (.error m) => some (.error m)
      | some (.ok rs) => some (.ok ((toString i, rv) :: rs))
termination_by structural xs => xs

end

/-- Dotted-path key construction `path ? path + "." + key : key`
(src/index.js line 81). -/
def joinKey (path k : String) : String :=
  if path = "" then k else path ++ "." ++ k

/-- Result of the `traverse` closure: either normal completion with the
resolved mapping and the `setOutput` calls made so far, or a thrown error
message together with the outputs already published before the throw. -/
inductive TravRes where
  | ok (resolved : List (String × JVal)) (outs : List (String × JVal))
  | thrown (msg : String) (outs : List (String × JVal))

mutual

/-- One iteration body of `traverse` (src/index.js lines 80-92) applied to
the value at `fullKey`: a truthy object is recursed into (an array first
publishing the `fullKey.array` raw-list output); anything else is a leaf,
resolved against the mapping built so far and stored under `fullKey`. -/
def travVal (fuel : Nat) (fullKey : String) (v : JVal)
    (res : List (String × JVal)) (outs : List (String × JVal)) :
    Option TravRes :=
  match v with
  | .arr xs =>
    travArr fuel fullKey 0 xs res (outs ++ [(fullKey ++ ".array", .arr xs)])
  | .obj fs => travObj fuel fullKey fs res outs
  | leaf =>
    match resolveVal res fuel leaf with
    | none => none
    | some (.error m) => some (.thrown m outs)
    | some (.ok rv) => some (.ok (setKey res fullKey rv) outs)
termination_by structural v

/-- The `for (const [key, val] of Object.entries(node))` loop of `traverse`
over an object's fields, in declaration order. -/
def travObj (fuel : Nat) (path : String) (es : List (String × JVal))
    (res : List (String × JVal)) (outs : List (String × JVal)) :
    Option TravRes :=
  match es with
  | [] => some (.ok res outs)
  | (k, v) :: rest =>
    match travVal fuel (joinKey path k) v res outs with
    | none => none
    | some (.thrown m o) => some (.thrown m o)
    | some (.ok res' outs') => travObj fuel path rest res' outs'
termination_by structural es

/-- The same loop over an array's elements, whose entry keys are the
decimal index strings "0", "1", ... -/
def travArr (fuel : Nat) (path : String) (i : Nat) (xs : List JVal)
    (res : List (String × JVal)) (outs : List (String × JVal)) :
    Option TravRes :=
  match xs with
  | [] => some (.ok res outs)
  | x :: rest =>
    match travVal fuel (joinKey path (toString i)) x res outs with
    | none => none
    | some (.thrown m o) => some (.thrown m o)
    | some (.ok res' outs') => travArr fuel path (i + 1) rest res' outs'
termination_by structural xs

end

/-- `Object.entries(parsed)` for the top-level call `traverse(parsed)`
(src/index.js line 94): an object yields its fields, an array its indexed
elements, a string its indexed characters, and numbers or booleans yield
nothing.  (`null` is handled separately since `Object.entries(null)`
throws.) -/
def topEntries : JVal → List (String × JVal)
  | .obj fs => fs
  | .arr xs => xs.enum.map (fun p => (toString p.1, p.2))
  | .str s => s.toList.enum.map (fun p => (toString p.1, .str (String.mk [p.2])))
  | _ => []

/-- The whole flatten-and-resolve pass `traverse(parsed)` starting with the
empty path, empty mapping and no outputs. -/
def travTop (fuel : Nat) (parsed : JVal) : Option TravRes :=
  travObj fuel "" (topEntries parsed) [] []

/-- Abstract regular-expression matcher: `find s` returns the leftmost
match in `s` as `(start index, length)`, or `none` if the pattern matches
nowhere in `s`.  Stateless, which is faithful because the code resets
`lastIndex` after every `replace` (src/index.js line 104) and a failed
`test` resets it too. -/
structure Matcher where
  find : List Char → Option (Nat × Nat)

/-- Index of the leftmost occurrence of the literal character list `p`. -/
def litFindAux (p : List Char) : List Char → Option Nat
  | [] => if p.isEmpty then some 0 else none
  | c :: t =>
    if p.isPrefixOf (c :: t) then some 0
    else (litFindAux p t).map (· + 1)

/-- Matcher for a metacharacter-free pattern, for which JS regex matching
is literal substring search. -/
def litCompile (pat : String) : Matcher :=
  ⟨fun s => (litFindAux pat.toList s).map (fun i => (i, pat.length))⟩

/-- JS `String.prototype.replace` with a global regex and empty replacement
string (src/index.js line 103): a single left-to-right pass that removes
each match and continues after it (after an empty match the character at
the match position is kept and scanning continues past it).  The fuel is
an upper bound on the number of matches; `jsRemoveAll` supplies one that
always suffices because every step strictly shortens the remainder. -/
def removeAll (m : Matcher) : Nat → List Char → List Char
  | 0, s => s
  | fuel + 1, s =>
    match m.find s with
    | none => s
    | some (i, 0) => s.take (i + 1) ++ removeAll m fuel (s.drop (i + 1))
    | some (i, len + 1) => s.take i ++ removeAll m fuel (s.drop (i + len + 1))

/-- `fullKey.replace(patternRegex, "")` (src/index.js line 103). -/
def jsRemoveAll (m : Matcher) (s : String) : String :=
  String.mk (removeAll m (s.length + 1) s.toList)

/-- The per-key filter/rewrite step (src/index.js lines 96-113): with no
pattern, every key is included unchanged; with a pattern, a key is
included iff the pattern matches somewhere in it, and the output key is
the key with the global-replace removal applied. -/
def filterRewrite (mOpt : Option Matcher) (fullKey : String) : Option String :=
  match mOpt with
  | none => some fullKey
  | some mt =>
    if (mt.find fullKey.toList).isSome then some (jsRemoveAll mt fullKey)
    else none

/-- Outputs published by the `for (const [fullKey, rawValue] of
Object.entries(resolvedValues))` loop (src/index.js lines 100-117):
included entries in mapping order, under their rewritten keys. -/
def includedOuts (mOpt : Option Matcher) (res : List (String × JVal)) :
    List (String × JVal) :=
  res.filterMap (fun kv => (filterRewrite mOpt kv.1).map (fun ok => (ok, kv.2)))

/-- Environment-variable name `${envPrefix}_${outputKey.replace(/[.\-]/g, "_")}`
(src/index.js line 120). -/
def envVarName (pref outKey : String) : String :=
  pref ++ "_" ++
    String.mk (outKey.toList.map (fun c => if c = '.' || c = '-' then '_' else c))

/-- Environment assignments made by the publish loop: one per included
entry when the prefix input is truthy (nonempty), none otherwise
(src/index.js lines 119-123). -/
def envOuts (pref : String) (incl : List (String × JVal)) :
    List (String × JVal) :=
  if pref = "" then [] else incl.map (fun kv => (envVarName pref kv.1, kv.2))

/-- `core.getInput(name)`: the configured value, or the empty string when
the input is not supplied. -/
def getInput (inputs : List (String × String)) (name : String) : String :=
  ((inputs.find? (fun kv => kv.1 == name)).map (·.2)).getD ""

/-- Observable effects of one invocation: `setOutput` calls,
`exportVariable` calls, `core.error` logs, and whether (and with which
message) the invocation fails. -/
structure Effects where
  outputs : List (String × JVal)
  envVars : List (String × JVal)
  errorLogs : List String
  failure : Option String

/-- Embedding of `run` (src/index.js lines 55-128) after the entitlement
check has passed non-fatally.  `fetch path` models `fs.readFile` followed
by `yaml.load`: the outer `Except` is the read outcome (its error goes to
`core.error` and the callback returns without failing), the inner one the
parse outcome (its error is thrown inside the callback and fails the
invocation).  The pattern input is read under the name
"key-path-pattern", exactly as `core.getInput("key-path-pattern")` does
on src/index.js line 59. -/
def runWith (compile : String → Matcher) (inputs : List (String × String))
    (fetch : String → Except String (Except String JVal)) (fuel : Nat) :
    Option Effects :=
  let yamlPath := getInput inputs "config"
  let filterPat := getInput inputs "key-path-pattern"
  let envPref := getInput inputs "env-var-prefix"
  match fetch yamlPath with
  | .error m =>
    some { outputs := [], envVars := [],
           errorLogs := ["Failed to read YAML: " ++ m], failure := none }
  | .ok (.error pm) =>
    some { outputs := [], envVars := [], errorLogs := [], failure := some pm }
  | .ok (.ok .null) =>
    some { outputs := [], envVars := [], errorLogs := [],
           failure := some "Cannot convert undefined or null to object" }
  | .ok (.ok parsed) =>
    match travTop fuel parsed with
    | none => none
    | some (.thrown m outs) =>
      some { outputs := outs, envVars := [], errorLogs := [],
             failure := some m }
    | some (.ok res outs) =>
      let mOpt : Option Matcher :=
        if filterPat = "" then none else some (compile filterPat)
      let incl := includedOuts mOpt res
      some { outputs := outs ++ incl, envVars := envOuts envPref incl,
             errorLogs := [], failure := none }

/-- Boolean test for array values, used to state that the resolved mapping
never stores a raw list. -/
def isArrVal : JVal → Bool
  | .arr _ => true
  | _ => false

/-- Boolean test for string values. -/
def isStrVal : JVal → Bool
  | .str _ => true
  | _ => false

/-- Invariant satisfied by every value the traversal stores in
`resolvedValues`: strings are fully substituted (no `$(name)` token
remains) and containers are never stored. -/
def storedOK : JVal → Prop
  | .str s => findToken s.toList = none
  | .arr _ => False
  | .obj _ => False
  | _ => True

mutual

/-- Membership in the image of the failsafe YAML schema: scalars are
strings, containers contain only failsafe values.  Numbers, booleans and
null never occur, since the failsafe schema resolves every scalar to the
string tag. -/
def failsafeB : JVal → Bool
  | .str _ => true
  | .arr xs => failsafeL xs
  | .obj fs => failsafeF fs
  | _ => false

/-- Failsafe check for array elements. -/
def failsafeL : List JVal → Bool
  | [] => true
  | x :: t => failsafeB x && failsafeL t

/-- Failsafe check for object fields. -/
def failsafeF : List (String × JVal) → Bool
  | [] => true
  | kv :: t => failsafeB kv.2 && failsafeF t

end

theorem resolveChars_ok_noToken (lookup : List (String × JVal)) :
    ∀ (fuel : Nat) (s r : List Char),
    resolveChars lookup fuel s = some (.ok r) → findToken r = none := by
  intro fuel
  induction fuel with
  | zero => intro s r h; simp [resolveChars] at h
  | succ n ih =>
    intro s r h
    rcases hf : findToken s with _ | ⟨before, nm, after⟩
    · simp [resolveChars, hf] at h
      subst h; exact hf
    · rcases hg : getKey lookup (String.mk nm) with _ | v
      · rcases hp : protoLookup (String.mk nm) with _ | po
        · simp [resolveChars, hf, hg, hp] at h
        · cases po with
          | subst rs =>
            simp [resolveChars, hf, hg, hp] at h
            exact ih _ _ h
          | echo =>
            simp [resolveChars, hf, hg, hp] at h
            exact ih _ _ h
          | raise m => simp [resolveChars, hf, hg, hp] at h
      · by_cases ht : jsTruthy v
        · simp [resolveChars, hf, hg, ht] at h
          exact ih _ _ h
        · simp [resolveChars, hf, hg, ht] at h

theorem mem_setKey (m : List (String × JVal)) (k : String) (v : JVal)
    (kv : String × JVal) (h : kv ∈ setKey m k v) : kv ∈ m ∨ kv.2 = v := by
  unfold setKey at h
  by_cases hpr : k == "__proto__"
  case pos =>
    rw [if_pos hpr] at h
    left; exact h
  case neg =>
  rw [if_neg hpr] at h
  by_cases hex : m.any (fun kv => kv.1 == k)
  · rw [if_pos hex] at h
    rcases List.mem_map.mp h with ⟨kv0, hmem, heq⟩
    by_cases hk : kv0.1 == k
    · rw [if_pos hk] at heq
      right; rw [← heq]
    · rw [if_neg hk] at heq
      left; rw [← heq]; exact hmem
  · rw [if_neg hex] at h
    rcases List.mem_append.mp h with h | h
    · left; exact h
    · right
      have hkv : kv = (k, v) := by simpa using h
      rw [hkv]

theorem travObj_invariant (P : JVal → Prop) (Q : JVal → Bool)
    (hQarr : ∀ xs, Q (.arr xs) = true → ∀ x ∈ xs, Q x = true)
    (hQobj : ∀ fs, Q (.obj fs) = true → ∀ kv ∈ fs, Q kv.2 = true)
    (hleaf : ∀ (res : List (String × JVal)) (fuel : Nat) (leaf rv : JVal),
      (∀ xs, leaf ≠ JVal.arr xs) → (∀ fs, leaf ≠ JVal.obj fs) →
      Q leaf = true → resolveVal res fuel leaf = some (.ok rv) → P rv)
    (fuel : Nat) :
    ∀ (path : String) (es : List (String × JVal))
      (res outs : List (String × JVal)),
      (∀ kv ∈ es, Q kv.2 = true) → (∀ kv ∈ res, P kv.2) →
      ∀ res' outs', travObj fuel path es res outs = some (.ok res' outs') →
      ∀ kv ∈ res', P kv.2 := by
  apply travObj.induct fuel
    (motive_1 := fun fullKey v res outs =>
      Q v = true → (∀ kv ∈ res, P kv.2) →
      ∀ res' outs', travVal fuel fullKey v res outs = some (.ok res' outs') →
      ∀ kv ∈ res', P kv.2)
    (motive_2 := fun path es res outs =>
      (∀ kv ∈ es, Q kv.2 = true) → (∀ kv ∈ res, P kv.2) →
      ∀ res' outs', travObj fuel path es res outs = some (.ok res' outs') →
      ∀ kv ∈ res', P kv.2)
    (motive_3 := fun path i xs res outs =>
      (∀ x ∈ xs, Q x = true) → (∀ kv ∈ res, P kv.2) →
      ∀ res' outs', travArr fuel path i xs res outs = some (.ok res' outs') →
      ∀ kv ∈ res', P kv.2)
  case _ =>
    intro fullKey res outs xs ih hQ hres res' outs' heq
    simp only [travVal] at heq
    exact ih (hQarr xs hQ) hres res' outs' heq
  case _ =>
    intro fullKey res outs fs ih hQ hres res' outs' heq
    simp only [travVal] at heq
    exact ih (hQobj fs hQ) hres res' outs' heq
  case _ =>
    intro fullKey res outs leaf hnarr hnobj hr hQ hres res' outs' heq
    exfalso
    cases leaf with
    | arr xs => exact hnarr xs rfl
    | obj fs => exact hnobj fs rfl
    | str s => simp [travVal, hr] at heq
    | num n => simp [travVal, hr] at heq
    | bool b => simp [travVal, hr] at heq
    | null => simp [travVal, hr] at heq
  case _ =>
    intro fullKey res outs leaf hnarr hnobj m hr hQ hres res' outs' heq
    exfalso
    cases leaf with
    | arr xs => exact hnarr xs rfl
    | obj fs => exact hnobj fs rfl
    | str s => simp [travVal, hr] at heq
    | num n => simp [travVal, hr] at heq
    | bool b => simp [travVal, hr] at heq
    | null => simp [travVal, hr] at heq
  case _ =>
    intro fullKey res outs leaf hnarr hnobj rv hr hQ hres res' outs' heq
    have hstep : travVal fuel fullKey leaf res outs
        = some (.ok (setKey res fullKey rv) outs) := by
      cases leaf with
      | arr xs => exact absurd rfl (hnarr xs)
      | obj fs => exact absurd rfl (hnobj fs)
      | str s => simp [travVal, hr]
      | num n => simp [travVal, hr]
      | bool b => simp [travVal, hr]
      | null => simp [travVal, hr]
    rw [hstep] at heq
    have hres' : res' = setKey res fullKey rv := by
      cases heq; rfl
    subst hres'
    intro kv hkv
    rcases mem_setKey res fullKey rv kv hkv with hin | hval
    · exact hres kv hin
    · rw [hval]
      exact hleaf res fuel leaf rv hnarr hnobj hQ hr
  case _ =>
    intro path i res outs hQ hres res' outs' heq
    simp only [travArr] at heq
    have : res' = res := by
      cases heq; rfl
    subst this
    exact hres
  case _ =>
    intro path i res outs x rest htv ih hQ hres res' outs' heq
    exfalso
    simp [travArr, htv] at heq
  case _ =>
    intro path i res outs x rest m o htv ih hQ hres res' outs' heq
    exfalso
    simp [travArr, htv] at heq
  case _ =>
    intro path i res outs x rest res1 outs1 htv ih1 ih2 hQ hres res' outs' heq
    simp only [travArr, htv] at heq
    have hres1 : ∀ kv ∈ res1, P kv.2 :=
      ih1 (hQ x (List.mem_cons_self _ _)) hres res1 outs1 htv
    exact ih2 (fun y hy => hQ y (List.mem_cons_of_mem _ hy)) hres1 res' outs' heq
  case _ =>
    intro path res outs hQ hres res' outs' heq
    simp only [travObj] at heq
    have : res' = res := by
      cases heq; rfl
    subst this
    exact hres
  case _ =>
    intro path res outs k v rest htv ih hQ hres res' outs' heq
    exfalso
    simp [travObj, htv] at heq
  case _ =>
    intro path res outs k v rest m o htv ih hQ hres res' outs' heq
    exfalso
    simp [travObj, htv] at heq
  case _ =>
    intro path res outs k v rest res1 outs1 htv ih1 ih2 hQ hres res' outs' heq
    simp only [travObj, htv] at heq
    have hres1 : ∀ kv ∈ res1, P kv.2 :=
      ih1 (hQ (k, v) (List.mem_cons_self _ _)) hres res1 outs1 htv
    exact ih2 (fun kv hkv => hQ kv (List.mem_cons_of_mem _ hkv)) hres1 res' outs' heq

theorem resolveVal_leaf_storedOK (res : List (String × JVal)) (fuel : Nat)
    (leaf rv : JVal) (hnarr : ∀ xs, leaf ≠ JVal.arr xs)
    (hnobj : ∀ fs, leaf ≠ JVal.obj fs)
    (h : resolveVal res fuel leaf = some (.ok rv)) : storedOK rv := by
  cases leaf with
  | arr xs => exact absurd rfl (hnarr xs)
  | obj fs => exact absurd rfl (hnobj fs)
  | str s =>
    rcases hc : resolveChars res fuel s.data with _ | e
    · simp [resolveVal, hc] at h
    · cases e with
      | ok cs =>
        simp [resolveVal, hc, Except.map] at h
        rw [← h]
        show findToken (String.mk cs).toList = none
        exact resolveChars_ok_noToken res fuel s.data cs hc
      | error m => simp [resolveVal, hc, Except.map] at h
  | num n => simp [resolveVal] at h; rw [← h]; trivial
  | bool b => simp [resolveVal] at h; rw [← h]; trivial
  | null => simp [resolveVal] at h; rw [← h]; trivial

theorem travTop_storedOK (fuel : Nat) (parsed : JVal)
    (res outs : List (String × JVal))
    (h : travTop fuel parsed = some (.ok res outs)) :
    ∀ kv ∈ res, storedOK kv.2 := by
  refine travObj_invariant storedOK (fun _ => true) ?_ ?_ ?_ fuel ""
    (topEntries parsed) [] [] ?_ ?_ res outs h
  · intro xs _ x _; rfl
  · intro fs _ kv _; rfl
  · intro res0 fuel0 leaf rv hnarr hnobj _ hr
    exact resolveVal_leaf_storedOK res0 fuel0 leaf rv hnarr hnobj hr
  · intro kv _; rfl
  · intro kv hkv; cases hkv

theorem failsafeL_mem : ∀ (xs : List JVal), failsafeL xs = true →
    ∀ x ∈ xs, failsafeB x = true := by
  intro xs
  induction xs with
  | nil => intro _ x hx; cases hx
  | cons y t ih =>
    intro h x hx
    rw [show failsafeL (y :: t) = (failsafeB y && failsafeL t) from rfl,
        Bool.and_eq_true] at h
    rcases hx with _ | hx
    · exact h.1
    · exact ih h.2 x (by assumption)

theorem failsafeF_mem : ∀ (fs : List (String × JVal)), failsafeF fs = true →
    ∀ kv ∈ fs, failsafeB kv.2 = true := by
  intro fs
  induction fs with
  | nil => intro _ kv hkv; cases hkv
  | cons y t ih =>
    intro h kv hkv
    rw [show failsafeF (y :: t) = (failsafeB y.2 && failsafeF t) from rfl,
        Bool.and_eq_true] at h
    rcases hkv with _ | hkv
    · exact h.1
    · exact ih h.2 kv (by assumption)

theorem snd_mem_of_mem_enumFrom {α : Type} :
    ∀ (xs : List α) (n : Nat) (p : Nat × α), p ∈ xs.enumFrom n → p.2 ∈ xs := by
  intro xs
  induction xs with
  | nil => intro n p hp; cases hp
  | cons x t ih =>
    intro n p hp
    rcases hp with _ | hp
    · exact List.mem_cons_self _ _
    · exact List.mem_cons_of_mem _ (ih (n + 1) p (by assumption))

theorem failsafe_topEntries (parsed : JVal) (h : failsafeB parsed = true) :
    ∀ kv ∈ topEntries parsed, failsafeB kv.2 = true := by
  cases parsed with
  | obj fs =>
    exact failsafeF_mem fs (by simpa [failsafeB] using h)
  | arr xs =>
    intro kv hkv
    simp only [topEntries, List.mem_map] at hkv
    rcases hkv with ⟨p, hp, hkv⟩
    rw [← hkv]
    exact failsafeL_mem xs (by simpa [failsafeB] using h) p.2
      (snd_mem_of_mem_enumFrom xs 0 p hp)
  | str s =>
    intro kv hkv
    simp only [topEntries, List.mem_map] at hkv
    rcases hkv with ⟨p, _, hkv⟩
    rw [← hkv]
    rfl
  | num n => intro kv hkv; cases hkv
  | bool b => intro kv hkv; cases hkv
  | null => intro kv hkv; cases hkv

theorem travTop_failsafe_str (fuel : Nat) (parsed : JVal)
    (res outs : List (String × JVal)) (hfs : failsafeB parsed = true)
    (h : travTop fuel parsed = some (.ok res outs)) :
    ∀ kv ∈ res, isStrVal kv.2 = true := by
  refine travObj_invariant (fun v => isStrVal v = true) failsafeB ?_ ?_ ?_ fuel ""
    (topEntries parsed) [] [] (failsafe_topEntries parsed hfs) ?_ res outs h
  · intro xs h x hx
    exact failsafeL_mem xs (by simpa [failsafeB] using h) x hx
  · intro fs h kv hkv
    exact failsafeF_mem fs (by simpa [failsafeB] using h) kv hkv
  · intro res0 fuel0 leaf rv hnarr hnobj hQ hr
    cases leaf with
    | arr xs => exact absurd rfl (hnarr xs)
    | obj fs => exact absurd rfl (hnobj fs)
    | num n => simp [failsafeB] at hQ
    | bool b => simp [failsafeB] at hQ
    | null => simp [failsafeB] at hQ
    | str s =>
      rcases hc : resolveChars res0 fuel0 s.data with _ | e
      · simp [resolveVal, hc] at hr
      · cases e with
        | ok cs =>
          simp [resolveVal, hc, Except.map] at hr
          rw [← hr]
          rfl
        | error m => simp [resolveVal, hc, Except.map] at hr
  · intro kv hkv; cases hkv

theorem litFindAux_single_none (c : Char) : ∀ (s : List Char),
    litFindAux [c] s = none → ∀ x ∈ s, x ≠ c := by
  intro s
  induction s with
  | nil => intro _ x hx; cases hx
  | cons y t ih =>
    intro h x hx
    by_cases hy : c = y
    · exfalso
      simp [litFindAux, List.isPrefixOf, hy] at h
    · have h2 : (litFindAux [c] t).map (· + 1) = none := by
        simpa [litFindAux, List.isPrefixOf, hy] using h
      have h3 : litFindAux [c] t = none := by
        cases hft : litFindAux [c] t with
        | none => rfl
        | some j => rw [hft] at h2; simp at h2
      rcases hx with _ | hx
      · intro hc; exact hy hc.symm
      · exact ih h3 x (by assumption)

theorem litFindAux_single_some (c : Char) : ∀ (s : List Char) (i : Nat),
    litFindAux [c] s = some i →
    s.take i ++ c :: s.drop (i + 1) = s ∧ ∀ x ∈ s.take i, x ≠ c := by
  intro s
  induction s with
  | nil => intro i h; simp [litFindAux] at h
  | cons y t ih =>
    intro i h
    by_cases hy : c = y
    · have h0 : litFindAux [c] (y :: t) = some 0 := by
        simp [litFindAux, List.isPrefixOf, hy]
      rw [h0] at h
      have hi : i = 0 := by cases h; rfl
      subst hi
      constructor
      · simp [hy]
      · intro x hx; simp at hx
    · have h2 : (litFindAux [c] t).map (· + 1) = some i := by
        simpa [litFindAux, List.isPrefixOf, hy] using h
      cases hft : litFindAux [c] t with
      | none => rw [hft] at h2; simp at h2
      | some j =>
        rw [hft] at h2
        simp at h2
        rcases ih j hft with ⟨hdec, htake⟩
        rw [← h2]
        constructor
        · show y :: (t.take j ++ c :: t.drop (j + 1)) = y :: t
          rw [hdec]
        · intro x hx
          rcases hx with _ | hx
          · intro hc; exact hy hc.symm
          · exact htake x (by assumption)

theorem removeAll_single (c : Char) : ∀ (fuel : Nat) (s : List Char),
    s.length < fuel →
    removeAll (litCompile (String.mk [c])) fuel s
      = s.filter (fun x => !(x == c)) := by
  intro fuel
  induction fuel with
  | zero => intro s h; omega
  | succ n ih =>
    intro s hlen
    cases hfind : litFindAux [c] s with
    | none =>
      have hfind' : (litCompile (String.mk [c])).find s = none := by
        show (litFindAux [c] s).map (fun i => (i, 1)) = none
        rw [hfind]; rfl
      have hnone := litFindAux_single_none c s hfind
      simp only [removeAll, hfind']
      exact (List.filter_eq_self.mpr fun a ha => by
        simpa using hnone a ha).symm
    | some i =>
      have hfind' : (litCompile (String.mk [c])).find s = some (i, 1) := by
        show (litFindAux [c] s).map (fun i => (i, 1)) = some (i, 1)
        rw [hfind]; rfl
      rcases litFindAux_single_some c s i hfind with ⟨hdec, htake⟩
      have hlen2 : (s.drop (i + 1)).length < n := by
        have hL := congrArg List.length hdec
        rw [List.length_append, List.length_cons] at hL
        omega
      simp only [removeAll, hfind']
      conv_rhs => rw [← hdec]
      rw [List.filter_append]
      have htk : List.filter (fun x => !(x == c)) (s.take i) = s.take i :=
        List.filter_eq_self.mpr fun a ha => by simpa using htake a ha
      rw [htk]
      have hcc : List.filter (fun x => !(x == c)) (c :: s.drop (i + 1))
          = List.filter (fun x => !(x == c)) (s.drop (i + 1)) := by
        simp
      rw [hcc, ih (s.drop (i + 1)) hlen2]

/-- Claim C1 (code bug): the specification and the README say the filter
pattern is supplied through the input named `key-path`, but src/index.js
line 59 reads `core.getInput("key-path-pattern")`.  Supplying
`key-path: "a"` (the README's documented input name) leaves the filter
disabled: the key `ab`, which the pattern matches, is published unchanged
instead of rewritten to `b`; the same value under the name
`key-path-pattern` does filter and rewrite.  The last conjunct confirms
the claim's other half, which does hold: with the pattern input absent or
empty, every resolved entry is included under its unchanged name. -/
theorem C1_keyPath_input_not_used :
    runWith litCompile [("config", "cfg.yaml"), ("key-path", "a")]
      (fun _ => .ok (.ok (.obj [("ab", .str "v")]))) 20
      = some ⟨[("ab", .str "v")], [], [], none⟩ ∧
    runWith litCompile [("config", "cfg.yaml"), ("key-path-pattern", "a")]
      (fun _ => .ok (.ok (.obj [("ab", .str "v")]))) 20
      = some ⟨[("b", .str "v")], [], [], none⟩ ∧
    ∀ res, includedOuts none res = res := by
  refine ⟨rfl, rfl, ?_⟩
  intro res
  simp [includedOuts, filterRewrite]

/-- Claim C2 (counterexample): with filter pattern `a`, the flat key `aba`
is published as `b`, not as `ba`; removing only the first matched
substring would give `ba`, so text matched by the second occurrence of
the pattern is NOT retained — the global-flag regex removes it too. -/
theorem C2_first_match_counterexample :
    runWith litCompile [("config", "f"), ("key-path-pattern", "a")]
      (fun _ => .ok (.ok (.obj [("aba", .str "v")]))) 20
      = some ⟨[("b", .str "v")], [], [], none⟩ ∧
    ("b" : String) ≠ "ba" := ⟨rfl, by decide⟩

/-- Claim C2 (amended): for every flat key the pattern matches, the
published output key equals the flat key with EVERY matched substring
removed, in one left-to-right pass (JS `replace` with the "g" flag); for
a single-character literal pattern this removes every occurrence of that
character, and `aba` filtered by `a` becomes `b`. -/
theorem C2_all_matches_removed :
    (∀ (mt : Matcher) (k : String), (mt.find k.toList).isSome = true →
      filterRewrite (some mt) k = some (jsRemoveAll mt k)) ∧
    (∀ (c : Char) (k : String),
      jsRemoveAll (litCompile (String.mk [c])) k
        = String.mk (k.toList.filter (fun x => !(x == c)))) ∧
    filterRewrite (some (litCompile "a")) "aba" = some "b" := by
  refine ⟨?_, ?_, rfl⟩
  · intro mt k h
    simp only [filterRewrite, h, if_pos]
  · intro c k
    unfold jsRemoveAll
    rw [removeAll_single c (k.length + 1) k.toList
      (by have h : k.toList.length = k.length := rfl; omega)]

theorem C2_all_matches_removed_witness :
    filterRewrite (some (litCompile "a")) "aba"
      = some (jsRemoveAll (litCompile "a") "aba") :=
  C2_all_matches_removed.1 (litCompile "a") "aba" (by rfl)

/-- Claim C3: once the configuration file has been read successfully, any
error thrown afterwards — a parse error from the YAML loader, or an
undefined interpolation variable — surfaces as a single invocation
failure carrying exactly that error's message, with nothing logged
through the error channel. -/
theorem C3_post_read_errors_fail_with_message :
    (∀ (compile : String → Matcher) (inputs : List (String × String))
       (fuel : Nat) (pm : String),
       runWith compile inputs (fun _ => .ok (.error pm)) fuel
         = some ⟨[], [], [], some pm⟩) ∧
    runWith litCompile [("config", "cfg.yaml")]
      (fun _ => .ok (.ok (.obj [("b", .str "$(a)")]))) 20
      = some ⟨[], [], [], some (undefinedMsg "a")⟩ :=
  ⟨fun _ _ _ _ => rfl, rfl⟩

/-- Claim C4: the interpolation loop replaces the first `$(name)` token
with the referenced resolved value, re-scans from the start of the
result, and terminates with the fully substituted string once no token
matches: `{a: "x", b: "$(a)y", c: "$(b)z"}` resolves to
`a=x, b=xy, c=xyz`, the leaf `$(a)-$(b)` resolves against that mapping to
`x-xy`, and every successfully returned string contains no remaining
token. -/
theorem C4_interpolation_rescan :
    travTop 20 (.obj [("a", .str "x"), ("b", .str "$(a)y"),
        ("c", .str "$(b)z")])
      = some (.ok [("a", .str "x"), ("b", .str "xy"), ("c", .str "xyz")] []) ∧
    resolveChars [("a", .str "x"), ("b", .str "xy"), ("c", .str "xyz")] 20
      "$(a)-$(b)".toList = some (.ok "x-xy".toList) ∧
    ∀ (lookup : List (String × JVal)) (fuel : Nat) (s r : List Char),
      resolveChars lookup fuel s = some (.ok r) → findToken r = none :=
  ⟨rfl, rfl, fun lookup => resolveChars_ok_noToken lookup⟩

theorem C4_interpolation_rescan_witness : findToken "x-xy".toList = none :=
  C4_interpolation_rescan.2.2
    [("a", JVal.str "x"), ("b", JVal.str "xy"), ("c", JVal.str "xyz")] 20
    "$(a)-$(b)".toList "x-xy".toList (by rfl)

/-- Claim C5 (counterexample): the name `__proto__` is absent from the
empty mapping, yet `$(__proto__)` does not raise the undefined-variable
error: the object-literal mapping inherits `__proto__` from
`Object.prototype`, the read yields `Object.prototype` itself — truthy —
and the replace coerces it to "[object Object]", which is substituted;
the run publishes `b = [object Object]` and succeeds. -/
theorem C5_absent_name_counterexample :
    resolveChars [] 20 "$(__proto__)".toList
      = some (.ok "[object Object]".toList) ∧
    getKey [] "__proto__" = none ∧
    resolveChars [] 20 "$(__proto__)".toList
      ≠ some (.error (undefinedMsg "__proto__")) ∧
    runWith litCompile [("config", "cfg.yaml")]
      (fun _ => .ok (.ok (.obj [("b", .str "$(__proto__)")]))) 20
      = some ⟨[("b", .str "[object Object]")], [], [], none⟩ := by
  refine ⟨rfl, rfl, fun h => ?_, rfl⟩
  have h2 := (show resolveChars [] 20 "$(__proto__)".toList
      = some (.ok "[object Object]".toList) from rfl).symm.trans h
  simp at h2

/-- Claim C5 (amended): when the first token of a string is `$(name)`, the
loop throws `Variable "name" is not defined` exactly when the JS read
`lookup[name]` is falsy: either `name` has a stored falsy value (empty
string, zero, false, null), or `name` is absent from the mapping AND is
not a member inherited from `Object.prototype`.  A name colliding with an
`Object.prototype` member (`__proto__`, `toString`, `constructor`,
`hasOwnProperty`, ...) reads as a truthy inherited value even when
absent, so the undefined-variable error is not thrown for it — the
inherited value's coercion is substituted, or the loop diverges, or a
TypeError is raised instead, per `protoLookup`.  When the stored value is
truthy, substitution (with `$`-pattern expansion of the stringified
value) proceeds without error. -/
theorem C5_truthiness_check :
    (∀ (lookup : List (String × JVal)) (fuel : Nat)
       (s before nm after : List Char),
      findToken s = some (before, nm, after) →
      (∀ v, getKey lookup (String.mk nm) = some v → jsTruthy v = false →
        resolveChars lookup (fuel + 1) s
          = some (.error (undefinedMsg (String.mk nm)))) ∧
      (getKey lookup (String.mk nm) = none →
       protoLookup (String.mk nm) = none →
        resolveChars lookup (fuel + 1) s
          = some (.error (undefinedMsg (String.mk nm)))) ∧
      (∀ v, getKey lookup (String.mk nm) = some v → jsTruthy v = true →
        resolveChars lookup (fuel + 1) s
          = resolveChars lookup fuel
              (before ++ expandRepl (tokenText nm) before after
                (jsToString v).toList ++ after)) ∧
      (∀ pstr, getKey lookup (String.mk nm) = none →
       protoLookup (String.mk nm) = some (.subst pstr) →
        resolveChars lookup (fuel + 1) s
          = resolveChars lookup fuel (before ++ pstr.toList ++ after))) ∧
    (jsTruthy (.str "") = false ∧ jsTruthy (.num 0) = false ∧
     jsTruthy (.bool false) = false ∧ jsTruthy .null = false ∧
     ∀ s, s ≠ "" → jsTruthy (.str s) = true) := by
  constructor
  · intro lookup fuel s before nm after hf
    refine ⟨?_, ?_, ?_, ?_⟩
    · intro v hg ht
      simp [resolveChars, hf, hg, ht]
    · intro hg hp
      simp [resolveChars, hf, hg, hp]
    · intro v hg ht
      simp [resolveChars, hf, hg, ht]
    · intro pstr hg hp
      simp [resolveChars, hf, hg, hp]
  · refine ⟨rfl, rfl, rfl, rfl, ?_⟩
    intro s hs
    simp [jsTruthy, hs]

theorem C5_truthiness_check_witness :
    resolveChars [("a", JVal.str "")] 20 "$(a)".toList
      = some (.error (undefinedMsg "a")) :=
  ((C5_truthiness_check.1 [("a", JVal.str "")] 19 "$(a)".toList
    [] ['a'] [] (by rfl)).1 (JVal.str "") (by rfl) (by rfl))

/-- Claim C6: an entry enters the resolved mapping only after its value is
fully resolved — every stored string has no remaining `$(name)` token —
and a value can only reference keys flattened earlier in depth-first
order: `{b: "$(a)2", a: "1"}`, resolved in declaration order, fails with
`Variable "a" is not defined`, while the same document with `a` declared
first succeeds with `a=1, b=12`. -/
theorem C6_order_dependent_resolution :
    (∀ (fuel : Nat) (parsed : JVal) (res outs : List (String × JVal)),
      travTop fuel parsed = some (.ok res outs) →
      ∀ kv ∈ res, storedOK kv.2) ∧
    runWith litCompile [("config", "cfg.yaml")]
      (fun _ => .ok (.ok (.obj [("b", .str "$(a)2"), ("a", .str "1")]))) 20
      = some ⟨[], [], [], some (undefinedMsg "a")⟩ ∧
    runWith litCompile [("config", "cfg.yaml")]
      (fun _ => .ok (.ok (.obj [("a", .str "1"), ("b", .str "$(a)2")]))) 20
      = some ⟨[("a", .str "1"), ("b", .str "12")], [], [], none⟩ :=
  ⟨travTop_storedOK, rfl, rfl⟩

theorem C6_order_dependent_resolution_witness : storedOK (JVal.str "1") :=
  C6_order_dependent_resolution.1 20 (JVal.obj [("a", JVal.str "1")])
    [("a", JVal.str "1")] [] (by rfl) ("a", JVal.str "1") (by simp)

/-- Claim C7: when reading the configuration file fails, the error is only
logged through `core.error` (prefixed "Failed to read YAML: ") and the
callback returns: no failure status is set and no output is published. -/
theorem C7_read_failure_logged_not_failed :
    ∀ (compile : String → Matcher) (inputs : List (String × String))
      (fetch : String → Except String (Except String JVal)) (fuel : Nat)
      (m : String),
      fetch (getInput inputs "config") = .error m →
      runWith compile inputs fetch fuel
        = some ⟨[], [], ["Failed to read YAML: " ++ m], none⟩ := by
  intro compile inputs fetch fuel m h
  simp only [runWith, h]

theorem C7_read_failure_logged_not_failed_witness :
    runWith litCompile [("config", "missing.yaml")] (fun _ => .error "ENOENT")
      20 = some ⟨[], [], ["Failed to read YAML: ENOENT"], none⟩ :=
  C7_read_failure_logged_not_failed litCompile [("config", "missing.yaml")]
    (fun _ => .error "ENOENT") 20 "ENOENT" rfl

/-- Claim C8: with a nonempty `env-var-prefix`, every included entry is
also exported as an environment variable named `<prefix>_<outputKey>`
with every '.' and every '-' of the output key replaced by '_'; prefix
`APP_CONF` with output key `application.config.port` yields
`APP_CONF_application_config_port`, and '-' is replaced as well. -/
theorem C8_env_var_naming :
    (∀ (pref : String) (incl : List (String × JVal)), pref ≠ "" →
      envOuts pref incl = incl.map (fun kv => (envVarName pref kv.1, kv.2))) ∧
    envVarName "APP_CONF" "application.config.port"
      = "APP_CONF_application_config_port" ∧
    envVarName "P" "a-b.c" = "P_a_b_c" ∧
    runWith litCompile [("config", "cfg.yaml"), ("env-var-prefix", "APP")]
      (fun _ => .ok (.ok (.obj [("app", .obj [("port", .str "1")])]))) 20
      = some ⟨[("app.port", .str "1")], [("APP_app_port", .str "1")],
              [], none⟩ := by
  refine ⟨?_, rfl, rfl, rfl⟩
  intro pref incl h
  simp [envOuts, h]

theorem C8_env_var_naming_witness :
    envOuts "APP_CONF" [("application.config.port", JVal.str "8080")]
      = [("application.config.port", JVal.str "8080")].map
          (fun kv => (envVarName "APP_CONF" kv.1, kv.2)) :=
  C8_env_var_naming.1 "APP_CONF"
    [("application.config.port", JVal.str "8080")] (by decide)

/-- Claim C9: every sequence node at path P publishes an output `P.array`
carrying the raw list immediately while flattening, unconditionally: it
is published even when the filter pattern matches no key (bypassing
filter and rewrite), yields no environment variable even with a prefix
set, and is published even when a later leaf fails; it is never stored in
the resolved mapping — no stored value is an array — so the reference
`$(xs.array)` fails as undefined. -/
theorem C9_array_marker_outputs :
    (∀ (fuel : Nat) (fullKey : String) (xs : List JVal)
       (res outs : List (String × JVal)),
      travVal fuel fullKey (.arr xs) res outs
        = travArr fuel fullKey 0 xs res
            (outs ++ [(fullKey ++ ".array", .arr xs)])) ∧
    (∀ (fuel : Nat) (parsed : JVal) (res outs : List (String × JVal)),
      travTop fuel parsed = some (.ok res outs) →
      ∀ kv ∈ res, isArrVal kv.2 = false) ∧
    runWith litCompile [("config", "f"), ("key-path-pattern", "zzz"),
        ("env-var-prefix", "P")]
      (fun _ => .ok (.ok (.obj [("xs", .arr [.str "a", .str "b"])]))) 20
      = some ⟨[("xs.array", .arr [.str "a", .str "b"])], [], [], none⟩ ∧
    runWith litCompile [("config", "f")]
      (fun _ => .ok (.ok (.obj [("xs", .arr [.str "a"]),
        ("b", .str "$(xs.array)")]))) 20
      = some ⟨[("xs.array", .arr [.str "a"])], [], [],
              some (undefinedMsg "xs.array")⟩ := by
  refine ⟨?_, ?_, rfl, rfl⟩
  · intro fuel fullKey xs res outs
    simp only [travVal]
  · intro fuel parsed res outs h kv hkv
    have hst := travTop_storedOK fuel parsed res outs h kv hkv
    cases hv : kv.2 with
    | arr ys => rw [hv] at hst; simp [storedOK] at hst
    | str s => rfl
    | num n => rfl
    | bool b => rfl
    | null => rfl
    | obj fs => rw [hv] at hst; simp [storedOK] at hst

theorem C9_array_marker_outputs_witness : isArrVal (JVal.str "a") = false :=
  C9_array_marker_outputs.2.1 20 (JVal.obj [("k", JVal.str "a")])
    [("k", JVal.str "a")] [] (by rfl) ("k", JVal.str "a") (by simp)

/-- Claim C10: for documents in the image of the failsafe schema — where
every scalar arrives as a string — every value stored in the resolved
mapping is a string, so the non-string pass-through branch of
`resolveVariables` is unreachable for document leaves, and a reference to
a key whose document value reads 0, false or null resolves successfully,
those being nonempty (truthy) strings. -/
theorem C10_failsafe_strings :
    (∀ (fuel : Nat) (parsed : JVal) (res outs : List (String × JVal)),
      failsafeB parsed = true →
      travTop fuel parsed = some (.ok res outs) →
      ∀ kv ∈ res, isStrVal kv.2 = true) ∧
    runWith litCompile [("config", "cfg.yaml")]
      (fun _ => .ok (.ok (.obj [("z", .str "0"), ("f", .str "false"),
        ("n", .str "null"), ("b", .str "$(z)-$(f)-$(n)")]))) 20
      = some ⟨[("z", .str "0"), ("f", .str "false"), ("n", .str "null"),
              ("b", .str "0-false-null")], [], [], none⟩ :=
  ⟨travTop_failsafe_str, rfl⟩

theorem C10_failsafe_strings_witness : isStrVal (JVal.str "0") = true :=
  C10_failsafe_strings.1 20 (JVal.obj [("z", JVal.str "0")])
    [("z", JVal.str "0")] [] (by rfl) (by rfl) ("z", JVal.str "0") (by simp)
